import Mathlib

/-!
Shallow embedding of the `bookshelf-advanced-serialization` plugin
(`lib/index.js`): the permission-aware recursive serializer (`Model.toJSON`),
the relation accessors (`Model.related`, `Model.fetchAll`), the relation
loader (`handleEnsureRelation` / `relationPromise`) and the collection
aggregator (`Collection.serialize`).

Serialization is modelled as a pure, fueled, trace-producing function:
the external suspension points (role determination, context designation,
relation loading) are recorded as ghost events tagged with the position
(`path`) of the record in the serialization tree, so that per-record
statements ("invoked at most once", "no I/O performed") are expressible.
Configuration errors are modelled with `Except`.
-/

/-- JSON-like values produced by serialization.  `undefined` (the ABSENT
outcome) is represented by `Option Value` at use sites, not by a
constructor, mirroring the fact that `undefined` is not a JSON value. -/
inductive Value : Type where
  | vnull : Value
  | str : String → Value
  | num : Int → Value
  | bool : Bool → Value
  | obj : List (String × Value) → Value
  | arr : List Value → Value

mutual
/-- A Bookshelf model: table name, optional id, attribute map, relation map,
the `_accessor` field and the `_accessedAsRelationChain` field, and the
new/unsaved flag (`isNew()`). -/
inductive Model : Type where
  | mk : String → Option String → List (String × Value) → List (String × RelVal) →
         Option String → List String → Bool → Model

/-- A relation value on a model: a single related model or a collection. -/
inductive RelVal : Type where
  | one : Model → RelVal
  | many : List Model → RelVal
end

def Model.tableName : Model → String
  | .mk t _ _ _ _ _ _ => t

def Model.mid : Model → Option String
  | .mk _ i _ _ _ _ _ => i

def Model.attributes : Model → List (String × Value)
  | .mk _ _ a _ _ _ _ => a

def Model.relations : Model → List (String × RelVal)
  | .mk _ _ _ r _ _ _ => r

def Model.accessor : Model → Option String
  | .mk _ _ _ _ acc _ _ => acc

def Model.chain : Model → List String
  | .mk _ _ _ _ _ ch _ => ch

def Model.isNew : Model → Bool
  | .mk _ _ _ _ _ _ nw => nw

/-- Replace the relation map of a model. -/
def Model.withRelations : Model → List (String × RelVal) → Model
  | .mk t i a _ acc ch nw, r => .mk t i a r acc ch nw

/-- Set `_accessor` and `_accessedAsRelationChain` on a model, as
`Model.related` does on each model it hands out. -/
def stampModel (acc : Option String) (ch : List String) : Model → Model
  | .mk t i a r _ _ nw => .mk t i a r acc ch nw

/-- Stamp every model inside a relation value. -/
def stampRel (acc : Option String) (ch : List String) : RelVal → RelVal
  | .one c => .one (stampModel acc ch c)
  | .many cs => .many (cs.map (stampModel acc ch))

/-- First-match lookup in a string-keyed association list (a JS object). -/
def lookupAssoc {α : Type} : List (String × α) → String → Option α
  | [], _ => none
  | (k, v) :: rest, key => if k = key then some v else lookupAssoc rest key

/-- Replace the value at a key if present, else append the binding
(the in-place update performed by relation loading). -/
def setAssoc {α : Type} : List (String × α) → String → α → List (String × α)
  | [], key, v => [(key, v)]
  | (k, w) :: rest, key, v =>
      if k = key then (k, v) :: rest else (k, w) :: setAssoc rest key v

/-- Helper for `intersectionJS`: keep the first occurrence of each element. -/
def dedupAux : List String → List String → List String
  | [], _ => []
  | x :: xs, seen => if x ∈ seen then dedupAux xs seen else x :: dedupAux xs (x :: seen)

/-- lodash `_.intersection(a, b)`: unique values of `a` also present in `b`,
in the order of `a`. -/
def intersectionJS (a b : List String) : List String :=
  dedupAux (a.filter (fun x => x ∈ b)) []

/-- lodash `_.difference(a, b)`: values of `a` not present in `b`. -/
def differenceJS (a b : List String) : List String :=
  a.filter (fun x => x ∉ b)

/-- lodash `_.pick(json, keys)` restricted to keys whose value is defined:
a key bound to `undefined` (an ABSENT relation result) contributes no field
to the JSON output. Result field order follows `keys`. -/
def pickJS (json : List (String × Option Value)) (keys : List String) :
    List (String × Value) :=
  keys.filterMap (fun k =>
    match lookupAssoc json k with
    | some (some v) => some (k, v)
    | _ => none)

/-- The `_.mapValues` normalization step of `toJSON`: a structurally empty
plain object becomes `null` (a known artifact of an empty relation slot). -/
def normalizeVals (l : List (String × Value)) : List (String × Value) :=
  l.map (fun kv =>
    (kv.1, match kv.2 with
           | .obj [] => .vnull
           | v => v))

/-- The `ensureRelationsLoaded` / `contextSpecificVisibleProperties` table
entry for one table name: a plain array of property names, a map from
context designations to arrays, or a truthy value of neither shape. -/
inductive TableEntry : Type where
  | arr : List String → TableEntry
  | map : List (String × List String) → TableEntry
  | bad : TableEntry

/-- A `contextDesignator` function; by default it receives the model's
`tableName`, `_accessedAsRelationChain` and `id`. -/
abbrev Designator := String → List String → Option String → String

/-- Per-model-class configuration: `roleDeterminer` (absent models a
non-function value) and `rolesToVisibleProperties` (absent models a
non-object value; a role bound to `none` models a non-array entry). -/
structure ClassDef : Type where
  roleDeterminer : Option (Option String → String)
  rolesToVisibleProperties : Option (List (String × Option (List String)))

/-- Plugin-level configuration: the force-load toggle
`ensureRelationsVisibleAndInvisible`, `defaultOmitNew`, and whether
`NODE_ENV === 'production'`. -/
structure PluginConfig : Type where
  ensureRelationsVisibleAndInvisible : Bool
  defaultOmitNew : Option Bool
  production : Bool

/-- The environment: class configuration per table name, the database's
"load this relation" capability, and the plugin configuration. -/
structure Env : Type where
  classes : List (String × ClassDef)
  dbLoad : String → Option String → String → RelVal
  cfg : PluginConfig

/-- Per-call options of `toJSON`. -/
structure Options : Type where
  contextSpecificVisibleProperties : Option (List (String × TableEntry))
  ensureRelationsLoaded : Option (List (String × TableEntry))
  contextDesignator : Option Designator
  accessor : Option String
  omitNew : Option Bool

/-- The configuration errors (`SanityError`s) thrown by `toJSON`. -/
inductive SerErr : Type where
  | missingRoleDeterminer : String → SerErr
  | missingRolesToVisibleProperties : String → SerErr
  | nonArrayVisibleProperties : String → String → SerErr
  | missingContextDesignator : String → SerErr
  | designatorMissedVisibilityArray : SerErr
  | missingContextDesignatorForRelations : String → SerErr
  | designatorMissedRelationsArray : SerErr
  | badContextTableEntry : String → SerErr
  | badEnsureTableEntry : String → SerErr
  | fuelExhausted : SerErr
deriving DecidableEq

/-- The kind of an external-interaction event. -/
inductive EventKind : Type where
  | roleCall : EventKind
  | designate : EventKind
  | handlerCall : String → EventKind
  | dbLoad : String → EventKind
  | diagnostic : List String → EventKind
deriving DecidableEq

/-- An event, tagged with the tree position of the record that emitted it. -/
structure Event : Type where
  path : List Nat
  kind : EventKind
deriving DecidableEq

/-- Result of a serialization step: the events it performed and its outcome. -/
structure SerRes (α : Type) : Type where
  trace : List Event
  res : Except SerErr α

def classOf (env : Env) (t : String) : Option ClassDef :=
  lookupAssoc env.classes t

/-- `rolesToVisibleProperties[role]`, defined only when the entry is an
array (`Array.isArray(visibleProperties)`). -/
def lookupRole (rtvp : List (String × Option (List String))) (role : String) :
    Option (List String) :=
  match lookupAssoc rtvp role with
  | some (some l) => some l
  | _ => none

/-- `options.accessor || this._accessor`. -/
def accessorOf (opts : Options) (m : Model) : Option String :=
  match opts.accessor with
  | some a => some a
  | none => m.accessor

/-- The effective `omitNew` value: a per-call value wins, else the plugin's
`defaultOmitNew`, else no omit-new behavior. -/
def effOmitNew (cfg : PluginConfig) (opts : Options) : Bool :=
  (opts.omitNew.getD (cfg.defaultOmitNew.getD false))

/-- The context designation (`getContextDesignation`): the designator applied
to the default evaluator arguments, when a designator was supplied. -/
def getContextDesignation (opts : Options) (m : Model) : Option String :=
  opts.contextDesignator.map (fun d => d m.tableName m.chain m.mid)

/-- Resolution of `options.contextSpecificVisibleProperties[this.tableName]`:
`none` when no context narrowing applies, `some cv` for a resolved array,
an error for a map entry without designator, a designation that identifies
no array, or an entry of the wrong shape. -/
def contextVisibleOf (opts : Options) (m : Model) :
    Except SerErr (Option (List String)) :=
  match opts.contextSpecificVisibleProperties with
  | none => .ok none
  | some table =>
    match lookupAssoc table m.tableName with
    | none => .ok none
    | some (.arr names) => .ok (some names)
    | some (.map entries) =>
      match opts.contextDesignator with
      | none => .error (.missingContextDesignator m.tableName)
      | some d =>
        match lookupAssoc entries (d m.tableName m.chain m.mid) with
        | some names => .ok (some names)
        | none => .error .designatorMissedVisibilityArray
    | some .bad => .error (.badContextTableEntry m.tableName)

/-- Resolution of `options.ensureRelationsLoaded[this.tableName]`, with the
same shape handling as `contextVisibleOf`. -/
def ensureNamesOf (opts : Options) (m : Model) :
    Except SerErr (Option (List String)) :=
  match opts.ensureRelationsLoaded with
  | none => .ok none
  | some table =>
    match lookupAssoc table m.tableName with
    | none => .ok none
    | some (.arr names) => .ok (some names)
    | some (.map entries) =>
      match opts.contextDesignator with
      | none => .error (.missingContextDesignatorForRelations m.tableName)
      | some d =>
        match lookupAssoc entries (d m.tableName m.chain m.mid) with
        | some names => .ok (some names)
        | none => .error .designatorMissedRelationsArray
    | some .bad => .error (.badEnsureTableEntry m.tableName)

/-- `ultimatelyVisibleProperties`: the whitelist intersection of the
role-determined array with the context-specific array when one applies. -/
def uvpFrom (vp : List String) (cvOpt : Option (List String)) : List String :=
  match cvOpt with
  | some cv => intersectionJS vp cv
  | none => vp

/-- The relation names actually passed to the relation-load handler:
all requested names when the force-load toggle is on, else only those
intersecting `ultimatelyVisibleProperties`. -/
def loadTheseOf (cfg : PluginConfig) (names uvp : List String) : List String :=
  if cfg.ensureRelationsVisibleAndInvisible then names
  else intersectionJS names uvp

/-- `defaultHandleEnsureRelation` / `relationPromise` for one relation name:
use the relation if already present, else load it from the database; either
way, re-read it through `related`, which stamps accessor and chain. -/
def handleEnsureRelation (env : Env) (p : List Nat) (m : Model) (name : String) :
    List Event × Model :=
  match lookupAssoc m.relations name with
  | some r =>
    ([⟨p, .handlerCall name⟩],
     m.withRelations (setAssoc m.relations name
       (stampRel m.accessor (m.chain ++ [name]) r)))
  | none =>
    ([⟨p, .handlerCall name⟩, ⟨p, .dbLoad name⟩],
     m.withRelations (setAssoc m.relations name
       (stampRel m.accessor (m.chain ++ [name]) (env.dbLoad m.tableName m.mid name))))

/-- `BluebirdPromise.map(loadTheseRelations, handleEnsureRelation)`. -/
def loadAll (env : Env) (p : List Nat) : Model → List String → List Event × Model
  | m, [] => ([], m)
  | m, name :: rest =>
    let r1 := handleEnsureRelation env p m name
    let r2 := loadAll env p r1.2 rest
    (r1.1 ++ r2.1, r2.2)

/-- The skipped-names diagnostic (`console.log`), emitted exactly when the
code emits it: outside production, when the load list and the requested
list differ in length. -/
def diagEvOf (cfg : PluginConfig) (names loadThese : List String)
    (p : List Nat) : List Event :=
  if ¬cfg.production ∧ loadThese.length ≠ names.length then
    [⟨p, .diagnostic (differenceJS names loadThese)⟩]
  else []

/-- The relation-loading stage of `toJSON`: skipped when the model's
attribute map is empty (`_.isEmpty(this.attributes)`); otherwise resolves
the requested names, may emit the skipped-names diagnostic, and runs the
handler on each name of the load list. -/
def ensureStage (env : Env) (opts : Options) (m : Model) (uvp : List String)
    (p : List Nat) : SerRes Model :=
  if m.attributes.isEmpty then ⟨[], .ok m⟩
  else
    match ensureNamesOf opts m with
    | .error e => ⟨[], .error e⟩
    | .ok none => ⟨[], .ok m⟩
    | .ok (some names) =>
      ⟨diagEvOf env.cfg names (loadTheseOf env.cfg names uvp) p ++
         (loadAll env p m (loadTheseOf env.cfg names uvp)).1,
       .ok (loadAll env p m (loadTheseOf env.cfg names uvp)).2⟩

/-- The pruning stage: delete every relation not in
`ultimatelyVisibleProperties`. -/
def pruneRelations (m : Model) (uvp : List String) : Model :=
  m.withRelations (m.relations.filter (fun kv => kv.1 ∈ uvp))

/-- The attribute part of the base Bookshelf `serialize` result. -/
def attrsJson (m : Model) : List (String × Option Value) :=
  m.attributes.map (fun kv => (kv.1, some kv.2))

/-- Serialization of the members of a relation collection
(`BluebirdPromise.all` over the member `toJSON` promises); member `j` of the
collection at position `p` serializes at position `p ++ [j]`. -/
def membersToJSON (rec : List Nat → Model → SerRes (Option Value))
    (p : List Nat) : Nat → List Model → SerRes (List (Option Value))
  | _, [] => ⟨[], .ok []⟩
  | j, c :: rest =>
    let r := rec (p ++ [j]) c
    match r.res with
    | .error e => ⟨r.trace, .error e⟩
    | .ok v =>
      let rr := membersToJSON rec p (j + 1) rest
      match rr.res with
      | .error e => ⟨r.trace ++ rr.trace, .error e⟩
      | .ok vs => ⟨r.trace ++ rr.trace, .ok (v :: vs)⟩

/-- The relation part of the base Bookshelf `serialize` result: each
remaining relation value is serialized recursively; a collection value
becomes an array with the ABSENT member results removed
(`Collection.serialize`). Relation `i` of the record at position `p`
serializes at position `p ++ [i]`. -/
def serializeRelsAux (rec : List Nat → Model → SerRes (Option Value))
    (p : List Nat) : Nat → List (String × RelVal) → SerRes (List (String × Option Value))
  | _, [] => ⟨[], .ok []⟩
  | i, (k, RelVal.one c) :: rest =>
    let r := rec (p ++ [i]) c
    match r.res with
    | .error e => ⟨r.trace, .error e⟩
    | .ok v =>
      let rr := serializeRelsAux rec p (i + 1) rest
      match rr.res with
      | .error e => ⟨r.trace ++ rr.trace, .error e⟩
      | .ok vs => ⟨r.trace ++ rr.trace, .ok ((k, v) :: vs)⟩
  | i, (k, RelVal.many ms) :: rest =>
    let r := membersToJSON rec (p ++ [i]) 0 ms
    match r.res with
    | .error e => ⟨r.trace, .error e⟩
    | .ok l =>
      let rr := serializeRelsAux rec p (i + 1) rest
      match rr.res with
      | .error e => ⟨r.trace ++ rr.trace, .error e⟩
      | .ok vs =>
        ⟨r.trace ++ rr.trace, .ok ((k, some (Value.arr (l.filterMap id))) :: vs)⟩

/-- The single designator-invocation event emitted when `toJSON` builds the
`contextDesignationPromise` (it applies the designator eagerly, once). -/
def desigEvOf (opts : Options) (p : List Nat) : List Event :=
  match opts.contextDesignator with
  | some _ => [⟨p, .designate⟩]
  | none => []

/-- The tail of `toJSON` after `ultimatelyVisibleProperties` is known and
nonempty: ensure relations, prune, serialize via the base `toJSON`, restrict
to `ultimatelyVisibleProperties`, and normalize empty objects to `null`. -/
def afterUvp (rec : List Nat → Model → SerRes (Option Value)) (p : List Nat)
    (env : Env) (opts : Options) (m : Model) (uvp : List String) :
    SerRes (Option Value) :=
  match ensureStage env opts m uvp p with
  | ⟨tr2, .error e⟩ => ⟨tr2, .error e⟩
  | ⟨tr2, .ok m1⟩ =>
    match serializeRelsAux rec p 0 (pruneRelations m1 uvp).relations with
    | ⟨tr3, .error e⟩ => ⟨tr2 ++ tr3, .error e⟩
    | ⟨tr3, .ok relJson⟩ =>
      ⟨tr2 ++ tr3,
       .ok (some (.obj (normalizeVals
         (pickJS (relJson ++ attrsJson (pruneRelations m1 uvp)) uvp))))⟩

/-- One level of `Model.toJSON`, with the recursive serialization of related
models abstracted as `rec`.  Mirrors `lib/index.js` step by step: sanity
checks, the `omitNew` early return, role determination, the eager context
designation, context-specific visibility, the ABSENT early returns, and the
`afterUvp` tail. -/
def toJSONbody (rec : List Nat → Model → SerRes (Option Value)) (p : List Nat)
    (env : Env) (opts : Options) (m : Model) : SerRes (Option Value) :=
  match classOf env m.tableName with
  | none => ⟨[], .error (.missingRoleDeterminer m.tableName)⟩
  | some cls =>
    match cls.roleDeterminer with
    | none => ⟨[], .error (.missingRoleDeterminer m.tableName)⟩
    | some rd =>
      match cls.rolesToVisibleProperties with
      | none => ⟨[], .error (.missingRolesToVisibleProperties m.tableName)⟩
      | some rtvp =>
        if effOmitNew env.cfg opts && m.isNew then ⟨[], .ok (some .vnull)⟩
        else
          match lookupRole rtvp (rd (accessorOf opts m)) with
          | none =>
            ⟨[⟨p, .roleCall⟩],
             .error (.nonArrayVisibleProperties m.tableName (rd (accessorOf opts m)))⟩
          | some vp =>
            if vp = [] then ⟨[⟨p, .roleCall⟩], .ok none⟩
            else
              match contextVisibleOf opts m with
              | .error e => ⟨⟨p, .roleCall⟩ :: desigEvOf opts p, .error e⟩
              | .ok cvOpt =>
                if uvpFrom vp cvOpt = [] then
                  ⟨⟨p, .roleCall⟩ :: desigEvOf opts p, .ok none⟩
                else
                  ⟨⟨p, .roleCall⟩ :: desigEvOf opts p ++
                     (afterUvp rec p env opts m (uvpFrom vp cvOpt)).trace,
                   (afterUvp rec p env opts m (uvpFrom vp cvOpt)).res⟩

/-- `Model.toJSON`, with fuel bounding the recursion depth.  The promise
resolving to the serialization result is modelled as the `res` field;
`.ok none` is the ABSENT (`undefined`) outcome. -/
def toJSON : Nat → List Nat → Env → Options → Model → SerRes (Option Value)
  | 0, _, _, _, _ => ⟨[], .error .fuelExhausted⟩
  | Nat.succ n, p, env, opts, m =>
    toJSONbody (fun q c => toJSON n q env opts c) p env opts m

/-- `Collection.serialize`: serialize every member, wait for all outcomes,
and remove the `undefined` (ABSENT) entries from the resulting array. -/
def collectionSerialize (n : Nat) (env : Env) (opts : Options) (p : List Nat)
    (ms : List Model) : SerRes (List Value) :=
  let r := membersToJSON (fun q c => toJSON n q env opts c) p 0 ms
  match r.res with
  | .error e => ⟨r.trace, .error e⟩
  | .ok l => ⟨r.trace, .ok (l.filterMap id)⟩

/-- `Model.related(name)`: hand out the stored relation after stamping
`_accessor` from the parent and `_accessedAsRelationChain` extended by the
relation name on every model in it. -/
def Model.related (m : Model) (name : String) : Option RelVal :=
  (lookupAssoc m.relations name).map
    (stampRel m.accessor (m.chain ++ [name]))

/-- `Model.fetchAll`: set the calling model's `_accessor` on every model of
the fetched collection. -/
def Model.fetchAll (m : Model) (fetched : List Model) : List Model :=
  fetched.map (fun c => stampModel m.accessor c.chain c)

/-- Whether an event is a designator invocation at exactly position `p`. -/
def Event.isDesignateAt (e : Event) (p : List Nat) : Bool :=
  if e.path = p then
    match e.kind with
    | .designate => true
    | _ => false
  else false

/-- The relation names passed to the relation-load handler at exactly
position `p`, in invocation order. -/
def handlerNamesAt (p : List Nat) (tr : List Event) : List String :=
  tr.filterMap (fun e =>
    if e.path = p then
      match e.kind with
      | .handlerCall nm => some nm
      | _ => none
    else none)

/-- Whether a trace contains a skipped-names diagnostic event. -/
def hasDiagnostic (tr : List Event) : Bool :=
  tr.any (fun e =>
    match e.kind with
    | .diagnostic _ => true
    | _ => false)

/-! Concrete configurations and records used to evaluate the serializer on
closed inputs (each mirrors a setup from the example models and the test
suite: a `users` class whose role is the accessor string itself). -/

/-- A `roleDeterminer` that uses the accessor value directly as the role. -/
def rdW : Option String → String := fun a => a.getD "anon"

/-- A `rolesToVisibleProperties` table with a full role, an id-only role,
a role with no visible properties, and a malformed (non-array) role entry. -/
def rtvpW : List (String × Option (List String)) :=
  [("full", some ["id", "username", "kids", "r1"]),
   ("idonly", some ["id"]),
   ("empty", some []),
   ("badrole", none)]

def clsW : ClassDef := ⟨some rdW, some rtvpW⟩

/-- An empty record, as produced by the Bookshelf empty-model bug. -/
def emptyModelW : Model := .mk "users" none [] [] none [] false

/-- Environment with a well-configured `users` class, a class without a
`roleDeterminer`, and a class without `rolesToVisibleProperties`;
default plugin configuration, non-production. -/
def envW : Env :=
  ⟨[("users", clsW), ("norole", ⟨none, some []⟩), ("novis", ⟨some rdW, none⟩)],
   fun _ _ _ => .one emptyModelW,
   ⟨false, none, false⟩⟩

/-- The same environment with the force-load toggle on. -/
def envC4 : Env :=
  ⟨[("users", clsW)], fun _ _ _ => .one emptyModelW, ⟨true, none, false⟩⟩

/-- The users environment with `defaultOmitNew = true`. -/
def envOmitD : Env :=
  ⟨[("users", clsW)], fun _ _ _ => .one emptyModelW, ⟨false, some true, false⟩⟩

def optsW : Options := ⟨none, none, none, none, none⟩

/-- Options requesting relation `secret` be ensured loaded on `users`. -/
def optsC4 : Options := ⟨none, some [("users", .arr ["secret"])], none, none, none⟩

/-- Options requesting relation `r1` be ensured loaded on `users`. -/
def optsC8 : Options := ⟨none, some [("users", .arr ["r1"])], none, none, none⟩

/-- Options whose context narrowing leaves no visible properties. -/
def optsCsv0 : Options :=
  ⟨some [("users", .arr ["nothing"])], none, none, none, none⟩

/-- Options with a map-form context-visibility entry but no designator. -/
def optsCsvErr : Options :=
  ⟨some [("users", .map [("x", ["id"])])], none, none, none, none⟩

/-- Options with a map-form ensure-relations entry but no designator. -/
def optsEnsErr : Options :=
  ⟨none, some [("users", .map [("x", ["r1"])])], none, none, none⟩

/-- Options with `omitNew = true`. -/
def optsOmit : Options := ⟨none, none, none, none, some true⟩

def mFull : Model :=
  .mk "users" (some "1") [("id", .str "1"), ("username", .str "a")] []
    (some "full") [] false

def mIdOnly : Model :=
  .mk "users" (some "9") [("id", .str "9")] [] (some "idonly") [] false

/-- A record whose role has no visible properties. -/
def mBlockedW : Model :=
  .mk "users" (some "2") [("id", .str "2")] [] (some "empty") [] false

/-- A record of a table with no configured class. -/
def mNoClass : Model := .mk "ghosts" none [("id", .str "g")] [] none [] false

def mNoRole : Model := .mk "norole" none [("id", .str "g")] [] none [] false

def mNoVis : Model := .mk "novis" none [("id", .str "g")] [] none [] false

/-- A record whose role maps to a malformed visible-properties entry. -/
def mBadRole : Model :=
  .mk "users" (some "3") [("id", .str "3")] [] (some "badrole") [] false

/-- A record with no attributes but one populated relation. -/
def mC8 : Model :=
  .mk "users" (some "8") [] [("r1", .one mIdOnly)] (some "full") [] false

/-- A record with attributes, used to exercise relation loading. -/
def mC4 : Model :=
  .mk "users" (some "7") [("id", .str "7")] [] (some "idonly") [] false

/-- A record with attributes and no relations, requesting `r1` be loaded. -/
def mC8b : Model :=
  .mk "users" (some "10") [("id", .str "10")] [] (some "full") [] false

/-- A genuinely empty record with a role that has visible properties. -/
def mEmptyVisible : Model := .mk "users" none [] [] (some "full") [] false

/-- A record whose `kids` relation is an empty record (the Bookshelf
empty-model artifact), as stored after stamping. -/
def mParentEmptyChild : Model :=
  .mk "users" (some "5") [("id", .str "5")] [("kids", .one mEmptyVisible)]
    (some "full") [] false

/-- An unsaved (new) record. -/
def mNew : Model :=
  .mk "users" none [("id", .str "n")] [] (some "full") [] true

/-! Helper lemmas about the list primitives and the event traces. -/

theorem mem_dedupAux {x : String} : ∀ {l seen : List String},
    x ∈ dedupAux l seen → x ∈ l := by
  intro l
  induction l with
  | nil => intro seen h; simp [dedupAux] at h
  | cons y ys ih =>
    intro seen h
    simp only [dedupAux] at h
    split at h
    · exact List.mem_cons_of_mem _ (ih h)
    · rcases List.mem_cons.mp h with h1 | h1
      · exact h1 ▸ List.mem_cons_self _ _
      · exact List.mem_cons_of_mem _ (ih h1)

theorem mem_intersectionJS {x : String} {a b : List String}
    (h : x ∈ intersectionJS a b) : x ∈ a ∧ x ∈ b := by
  have h1 := mem_dedupAux h
  have h2 := List.mem_filter.mp h1
  exact ⟨h2.1, by simpa using h2.2⟩

theorem pickJS_key_mem {json : List (String × Option Value)} {keys : List String}
    {kv : String × Value} (h : kv ∈ pickJS json keys) : kv.1 ∈ keys := by
  rcases List.mem_filterMap.mp h with ⟨a, ha, hfa⟩
  rcases hlk : lookupAssoc json a with _ | ov
  · rw [hlk] at hfa; simp at hfa
  · rcases ov with _ | v
    · rw [hlk] at hfa; simp at hfa
    · rw [hlk] at hfa
      simp only [Option.some.injEq] at hfa
      rw [← hfa]
      exact ha

theorem normalizeVals_no_empty_obj {l : List (String × Value)}
    {kv : String × Value} (h : kv ∈ normalizeVals l) : kv.2 ≠ .obj [] := by
  rcases List.mem_map.mp h with ⟨kv', _, hkv⟩
  rw [← hkv]
  rcases kv' with ⟨k, v⟩
  rcases v with _ | s | n | b | fields | els <;> try simp
  rcases fields with _ | ⟨f, fs⟩ <;> simp

theorem handlerNamesAt_append (p : List Nat) (a b : List Event) :
    handlerNamesAt p (a ++ b) = handlerNamesAt p a ++ handlerNamesAt p b := by
  simp [handlerNamesAt]

theorem handleEnsureRelation_events {env : Env} {p : List Nat} {m : Model}
    {name : String} {e : Event} (h : e ∈ (handleEnsureRelation env p m name).1) :
    e.path = p ∧ (e.kind = .handlerCall name ∨ e.kind = .dbLoad name) := by
  unfold handleEnsureRelation at h
  split at h
  · simp at h
    subst h
    simp
  · simp at h
    rcases h with h | h <;> subst h <;> simp

theorem handleEnsureRelation_handlerNames (env : Env) (p : List Nat) (m : Model)
    (name : String) :
    handlerNamesAt p (handleEnsureRelation env p m name).1 = [name] := by
  unfold handleEnsureRelation
  split <;> simp [handlerNamesAt]

theorem loadAll_events {env : Env} {p : List Nat} : ∀ {m : Model} {names : List String}
    {e : Event}, e ∈ (loadAll env p m names).1 →
    e.path = p ∧ ∃ nm, (e.kind = .handlerCall nm ∨ e.kind = .dbLoad nm) := by
  intro m names
  induction names generalizing m with
  | nil => intro e h; simp [loadAll] at h
  | cons name rest ih =>
    intro e h
    simp only [loadAll] at h
    rcases List.mem_append.mp h with h1 | h1
    · have := handleEnsureRelation_events h1
      exact ⟨this.1, name, this.2⟩
    · exact ih h1

theorem loadAll_handlerNames (env : Env) (p : List Nat) : ∀ (m : Model)
    (names : List String), handlerNamesAt p (loadAll env p m names).1 = names := by
  intro m names
  induction names generalizing m with
  | nil => simp [loadAll, handlerNamesAt]
  | cons name rest ih =>
    simp only [loadAll]
    rw [handlerNamesAt_append, handleEnsureRelation_handlerNames, ih]
    simp

theorem diagEvOf_events {cfg : PluginConfig} {names loadThese : List String}
    {p : List Nat} {e : Event} (h : e ∈ diagEvOf cfg names loadThese p) :
    e.path = p ∧ e.kind = .diagnostic (differenceJS names loadThese) := by
  unfold diagEvOf at h
  split at h <;> simp at h
  subst h
  simp

theorem ensureStage_events {env : Env} {opts : Options} {m : Model}
    {uvp : List String} {p : List Nat} {e : Event}
    (h : e ∈ (ensureStage env opts m uvp p).trace) :
    e.path = p ∧ e.kind ≠ .designate ∧ e.kind ≠ .roleCall := by
  unfold ensureStage at h
  split at h
  · simp at h
  · split at h
    · simp at h
    · simp at h
    · simp only at h
      rcases List.mem_append.mp h with h1 | h1
      · rcases diagEvOf_events h1 with ⟨hp, hk⟩
        exact ⟨hp, by simp [hk]⟩
      · rcases loadAll_events h1 with ⟨hp, nm, hk⟩
        rcases hk with hk | hk <;> exact ⟨hp, by simp [hk]⟩

theorem desigEvOf_events {opts : Options} {p : List Nat} {e : Event}
    (h : e ∈ desigEvOf opts p) : e.path = p ∧ e.kind = .designate := by
  unfold desigEvOf at h
  split at h <;> simp at h
  subst h
  simp

theorem membersToJSON_path {rec : List Nat → Model → SerRes (Option Value)}
    (Hrec : ∀ q c e, e ∈ (rec q c).trace → q.length ≤ e.path.length)
    {p : List Nat} : ∀ {j : Nat} {ms : List Model} {e : Event},
    e ∈ (membersToJSON rec p j ms).trace → p.length + 1 ≤ e.path.length := by
  intro j ms
  induction ms generalizing j with
  | nil => intro e h; simp [membersToJSON] at h
  | cons c rest ih =>
    intro e h
    simp only [membersToJSON] at h
    split at h
    · have := Hrec _ _ _ h
      simpa using this
    · split at h
      · rcases List.mem_append.mp h with h1 | h1
        · have := Hrec _ _ _ h1
          simpa using this
        · exact ih h1
      · rcases List.mem_append.mp h with h1 | h1
        · have := Hrec _ _ _ h1
          simpa using this
        · exact ih h1

theorem serializeRelsAux_path {rec : List Nat → Model → SerRes (Option Value)}
    (Hrec : ∀ q c e, e ∈ (rec q c).trace → q.length ≤ e.path.length)
    {p : List Nat} : ∀ {i : Nat} {rels : List (String × RelVal)} {e : Event},
    e ∈ (serializeRelsAux rec p i rels).trace → p.length + 1 ≤ e.path.length := by
  intro i rels
  induction rels generalizing i with
  | nil => intro e h; simp [serializeRelsAux] at h
  | cons kv rest ih =>
    intro e h
    rcases kv with ⟨k, r⟩
    rcases r with c | ms
    · simp only [serializeRelsAux] at h
      split at h
      · have := Hrec _ _ _ h
        simpa using this
      · split at h
        · rcases List.mem_append.mp h with h1 | h1
          · have := Hrec _ _ _ h1
            simpa using this
          · exact ih h1
        · rcases List.mem_append.mp h with h1 | h1
          · have := Hrec _ _ _ h1
            simpa using this
          · exact ih h1
    · simp only [serializeRelsAux] at h
      split at h
      · have := membersToJSON_path Hrec h
        simp at this
        omega
      · split at h
        · rcases List.mem_append.mp h with h1 | h1
          · have := membersToJSON_path Hrec h1
            simp at this
            omega
          · exact ih h1
        · rcases List.mem_append.mp h with h1 | h1
          · have := membersToJSON_path Hrec h1
            simp at this
            omega
          · exact ih h1

theorem afterUvp_path {rec : List Nat → Model → SerRes (Option Value)}
    (Hrec : ∀ q c e, e ∈ (rec q c).trace → q.length ≤ e.path.length)
    {p : List Nat} {env : Env} {opts : Options} {m : Model} {uvp : List String}
    {e : Event} (h : e ∈ (afterUvp rec p env opts m uvp).trace) :
    p.length ≤ e.path.length := by
  unfold afterUvp at h
  split at h
  · rename_i tr2 e' heq
    have : e ∈ (ensureStage env opts m uvp p).trace := by
      rw [heq]; exact h
    exact le_of_eq ((ensureStage_events this).1 ▸ rfl)
  · rename_i tr2 m1 heq
    split at h
    · rename_i tr3 e' heq2
      rcases List.mem_append.mp h with h1 | h1
      · have : e ∈ (ensureStage env opts m uvp p).trace := by rw [heq]; exact h1
        exact le_of_eq ((ensureStage_events this).1 ▸ rfl)
      · have : e ∈ (serializeRelsAux rec p 0 (pruneRelations m1 uvp).relations).trace := by
          rw [heq2]; exact h1
        have := serializeRelsAux_path Hrec this
        omega
    · rename_i tr3 relJson heq2
      rcases List.mem_append.mp h with h1 | h1
      · have : e ∈ (ensureStage env opts m uvp p).trace := by rw [heq]; exact h1
        exact le_of_eq ((ensureStage_events this).1 ▸ rfl)
      · have : e ∈ (serializeRelsAux rec p 0 (pruneRelations m1 uvp).relations).trace := by
          rw [heq2]; exact h1
        have := serializeRelsAux_path Hrec this
        omega

theorem toJSONbody_path {rec : List Nat → Model → SerRes (Option Value)}
    (Hrec : ∀ q c e, e ∈ (rec q c).trace → q.length ≤ e.path.length)
    {p : List Nat} {env : Env} {opts : Options} {m : Model} {e : Event}
    (h : e ∈ (toJSONbody rec p env opts m).trace) : p.length ≤ e.path.length := by
  unfold toJSONbody at h
  split at h
  · simp at h
  · split at h
    · simp at h
    · split at h
      · simp at h
      · split at h
        · simp at h
        · split at h
          · simp at h
            subst h
            simp
          · split at h
            · simp at h
              subst h
              simp
            · split at h
              · rcases List.mem_cons.mp h with h1 | h1
                · subst h1; simp
                · exact le_of_eq ((desigEvOf_events h1).1 ▸ rfl)
              · split at h
                · rcases List.mem_cons.mp h with h1 | h1
                  · subst h1; simp
                  · exact le_of_eq ((desigEvOf_events h1).1 ▸ rfl)
                · rcases List.mem_cons.mp h with h1 | h1
                  · subst h1; simp
                  · rcases List.mem_append.mp h1 with h2 | h2
                    · exact le_of_eq ((desigEvOf_events h2).1 ▸ rfl)
                    · exact afterUvp_path Hrec h2

theorem toJSON_path : ∀ {n : Nat} {p : List Nat} {env : Env} {opts : Options}
    {m : Model} {e : Event}, e ∈ (toJSON n p env opts m).trace →
    p.length ≤ e.path.length := by
  intro n
  induction n with
  | zero => intro p env opts m e h; simp [toJSON] at h
  | succ n ih =>
    intro p env opts m e h
    exact toJSONbody_path (fun q c e' h' => ih h') h

theorem toJSON_succ (n : Nat) (p : List Nat) (env : Env) (opts : Options)
    (m : Model) : toJSON (Nat.succ n) p env opts m =
    toJSONbody (fun q c => toJSON n q env opts c) p env opts m := rfl

theorem ensureStage_skip {env : Env} {opts : Options} {m : Model}
    {uvp : List String} {p : List Nat} (h : m.attributes.isEmpty = true) :
    ensureStage env opts m uvp p = ⟨[], .ok m⟩ := by
  simp [ensureStage, h]

theorem ensureStage_run {env : Env} {opts : Options} {m : Model}
    {uvp : List String} {p : List Nat} {names : List String}
    (h : m.attributes.isEmpty = false)
    (h2 : ensureNamesOf opts m = .ok (some names)) :
    ensureStage env opts m uvp p =
      ⟨diagEvOf env.cfg names (loadTheseOf env.cfg names uvp) p ++
         (loadAll env p m (loadTheseOf env.cfg names uvp)).1,
       .ok (loadAll env p m (loadTheseOf env.cfg names uvp)).2⟩ := by
  simp [ensureStage, h, h2]

theorem toJSONbody_omitNew {rec : List Nat → Model → SerRes (Option Value)}
    {p : List Nat} {env : Env} {opts : Options} {m : Model} {cls : ClassDef}
    {rd : Option String → String} {rtvp : List (String × Option (List String))}
    (h1 : classOf env m.tableName = some cls)
    (h2 : cls.roleDeterminer = some rd)
    (h3 : cls.rolesToVisibleProperties = some rtvp)
    (h4 : effOmitNew env.cfg opts = true) (h5 : m.isNew = true) :
    toJSONbody rec p env opts m = ⟨[], .ok (some .vnull)⟩ := by
  simp [toJSONbody, h1, h2, h3, h4, h5]

theorem toJSONbody_roleEmpty {rec : List Nat → Model → SerRes (Option Value)}
    {p : List Nat} {env : Env} {opts : Options} {m : Model} {cls : ClassDef}
    {rd : Option String → String} {rtvp : List (String × Option (List String))}
    (h1 : classOf env m.tableName = some cls)
    (h2 : cls.roleDeterminer = some rd)
    (h3 : cls.rolesToVisibleProperties = some rtvp)
    (h4 : (effOmitNew env.cfg opts && m.isNew) = false)
    (h5 : lookupRole rtvp (rd (accessorOf opts m)) = some []) :
    toJSONbody rec p env opts m = ⟨[⟨p, .roleCall⟩], .ok none⟩ := by
  simp [toJSONbody, h1, h2, h3, h4, h5]

theorem toJSONbody_uvpEmpty {rec : List Nat → Model → SerRes (Option Value)}
    {p : List Nat} {env : Env} {opts : Options} {m : Model} {cls : ClassDef}
    {rd : Option String → String} {rtvp : List (String × Option (List String))}
    {vp : List String} {cvOpt : Option (List String)}
    (h1 : classOf env m.tableName = some cls)
    (h2 : cls.roleDeterminer = some rd)
    (h3 : cls.rolesToVisibleProperties = some rtvp)
    (h4 : (effOmitNew env.cfg opts && m.isNew) = false)
    (h5 : lookupRole rtvp (rd (accessorOf opts m)) = some vp)
    (h6 : vp ≠ [])
    (h7 : contextVisibleOf opts m = .ok cvOpt)
    (h8 : uvpFrom vp cvOpt = []) :
    toJSONbody rec p env opts m =
      ⟨⟨p, .roleCall⟩ :: desigEvOf opts p, .ok none⟩ := by
  simp [toJSONbody, h1, h2, h3, h4, h5, h6, h7, h8]

theorem toJSONbody_success {rec : List Nat → Model → SerRes (Option Value)}
    {p : List Nat} {env : Env} {opts : Options} {m : Model} {cls : ClassDef}
    {rd : Option String → String} {rtvp : List (String × Option (List String))}
    {vp : List String} {cvOpt : Option (List String)}
    (h1 : classOf env m.tableName = some cls)
    (h2 : cls.roleDeterminer = some rd)
    (h3 : cls.rolesToVisibleProperties = some rtvp)
    (h4 : (effOmitNew env.cfg opts && m.isNew) = false)
    (h5 : lookupRole rtvp (rd (accessorOf opts m)) = some vp)
    (h6 : vp ≠ [])
    (h7 : contextVisibleOf opts m = .ok cvOpt)
    (h8 : uvpFrom vp cvOpt ≠ []) :
    toJSONbody rec p env opts m =
      ⟨⟨p, .roleCall⟩ :: desigEvOf opts p ++
         (afterUvp rec p env opts m (uvpFrom vp cvOpt)).trace,
       (afterUvp rec p env opts m (uvpFrom vp cvOpt)).res⟩ := by
  simp [toJSONbody, h1, h2, h3, h4, h5, h6, h7, h8]

theorem afterUvp_obj_inv {rec : List Nat → Model → SerRes (Option Value)}
    {p : List Nat} {env : Env} {opts : Options} {m : Model} {uvp : List String}
    {fields : List (String × Value)}
    (h : (afterUvp rec p env opts m uvp).res = .ok (some (.obj fields))) :
    ∃ m1 relJson,
      fields = normalizeVals (pickJS (relJson ++ attrsJson (pruneRelations m1 uvp)) uvp) := by
  unfold afterUvp at h
  split at h
  · simp at h
  · rename_i tr2 m1 heq
    split at h
    · simp at h
    · rename_i tr3 relJson heq2
      simp only [Except.ok.injEq, Option.some.injEq, Value.obj.injEq] at h
      exact ⟨m1, relJson, h.symm⟩

theorem normalizeVals_mem_key {l : List (String × Value)} {kv : String × Value}
    (h : kv ∈ normalizeVals l) : ∃ kv', kv' ∈ l ∧ kv.1 = kv'.1 := by
  rcases List.mem_map.mp h with ⟨kv', hmem, hkv⟩
  exact ⟨kv', hmem, by rw [← hkv]⟩

theorem normalizeVals_keys (l : List (String × Value)) :
    (normalizeVals l).map Prod.fst = l.map Prod.fst := by
  unfold normalizeVals
  rw [List.map_map]
  rfl

theorem normalizeVals_empty_obj_to_null {l : List (String × Value)} {k : String}
    (h : (k, Value.obj []) ∈ l) : (k, Value.vnull) ∈ normalizeVals l := by
  have := List.mem_map_of_mem (fun kv : String × Value =>
    (kv.1, match kv.2 with | .obj [] => Value.vnull | v => v)) h
  simpa [normalizeVals] using this

theorem toJSONbody_obj_inv {rec : List Nat → Model → SerRes (Option Value)}
    {p : List Nat} {env : Env} {opts : Options} {m : Model}
    {fields : List (String × Value)}
    (h : (toJSONbody rec p env opts m).res = .ok (some (.obj fields))) :
    ∃ cls rd rtvp vp cvOpt,
      classOf env m.tableName = some cls ∧
      cls.roleDeterminer = some rd ∧
      cls.rolesToVisibleProperties = some rtvp ∧
      lookupRole rtvp (rd (accessorOf opts m)) = some vp ∧
      contextVisibleOf opts m = .ok cvOpt ∧
      (∀ kv ∈ fields, kv.1 ∈ uvpFrom vp cvOpt) ∧
      (∃ pre, fields = normalizeVals pre) := by
  unfold toJSONbody at h
  split at h
  · simp at h
  · rename_i cls hcls
    split at h
    · simp at h
    · rename_i rd hrd
      split at h
      · simp at h
      · rename_i rtvp hrtvp
        split at h
        · simp at h
        · split at h
          · simp at h
          · rename_i vp hvp
            split at h
            · simp at h
            · split at h
              · simp at h
              · rename_i cvOpt hcv
                split at h
                · simp at h
                · rcases afterUvp_obj_inv h with ⟨m1, relJson, hfields⟩
                  refine ⟨cls, rd, rtvp, vp, cvOpt, hcls, hrd, hrtvp, hvp, hcv, ?_, ?_⟩
                  · intro kv hkv
                    rw [hfields] at hkv
                    rcases normalizeVals_mem_key hkv with ⟨kv', hmem, hk⟩
                    rw [hk]
                    exact pickJS_key_mem hmem
                  · exact ⟨_, hfields⟩

theorem ensureStage_err {env : Env} {opts : Options} {m : Model}
    {uvp : List String} {p : List Nat} {e : SerErr}
    (h : m.attributes.isEmpty = false)
    (h2 : ensureNamesOf opts m = .error e) :
    ensureStage env opts m uvp p = ⟨[], .error e⟩ := by
  simp [ensureStage, h, h2]

theorem ensureStage_noEntry {env : Env} {opts : Options} {m : Model}
    {uvp : List String} {p : List Nat}
    (h : m.attributes.isEmpty = false)
    (h2 : ensureNamesOf opts m = .ok none) :
    ensureStage env opts m uvp p = ⟨[], .ok m⟩ := by
  simp [ensureStage, h, h2]

theorem afterUvp_trace_decomp {rec : List Nat → Model → SerRes (Option Value)}
    (Hrec : ∀ q c e, e ∈ (rec q c).trace → q.length ≤ e.path.length)
    (p : List Nat) (env : Env) (opts : Options) (m : Model) (uvp : List String) :
    ∃ tr3, (afterUvp rec p env opts m uvp).trace =
        (ensureStage env opts m uvp p).trace ++ tr3 ∧
      ∀ e ∈ tr3, p.length + 1 ≤ e.path.length := by
  unfold afterUvp
  split
  · rename_i tr2 e' heq
    refine ⟨[], ?_, by simp⟩
    rw [heq]
    simp
  · rename_i tr2 m1 heq
    split
    · rename_i tr3 e' heq2
      refine ⟨tr3, by rw [heq], ?_⟩
      intro e he
      have : e ∈ (serializeRelsAux rec p 0 (pruneRelations m1 uvp).relations).trace := by
        rw [heq2]; exact he
      exact serializeRelsAux_path Hrec this
    · rename_i tr3 relJson heq2
      refine ⟨tr3, by rw [heq], ?_⟩
      intro e he
      have : e ∈ (serializeRelsAux rec p 0 (pruneRelations m1 uvp).relations).trace := by
        rw [heq2]; exact he
      exact serializeRelsAux_path Hrec this

theorem handlerNamesAt_nil_of_kinds {p : List Nat} {tr : List Event}
    (h : ∀ e ∈ tr, e.path = p → ∀ nm, e.kind ≠ .handlerCall nm) :
    handlerNamesAt p tr = [] := by
  unfold handlerNamesAt
  rw [List.filterMap_eq_nil_iff]
  intro e he
  by_cases hp : e.path = p
  · simp only [hp, if_pos]
    rcases hk : e.kind <;> simp_all
  · simp [hp]

theorem handlerNamesAt_long_nil {p : List Nat} {tr : List Event}
    (h : ∀ e ∈ tr, p.length + 1 ≤ e.path.length) :
    handlerNamesAt p tr = [] := by
  apply handlerNamesAt_nil_of_kinds
  intro e he hp
  have := h e he
  rw [hp] at this
  omega

theorem handlerNamesAt_cons_none {p : List Nat} {e : Event} {tr : List Event}
    (h : ∀ nm, e.kind ≠ .handlerCall nm) :
    handlerNamesAt p (e :: tr) = handlerNamesAt p tr := by
  by_cases hp : e.path = p
  · rcases hk : e.kind with _ | _ | nm | nm | l
    · simp [handlerNamesAt, List.filterMap_cons, hp, hk]
    · simp [handlerNamesAt, List.filterMap_cons, hp, hk]
    · exact absurd hk (h nm)
    · simp [handlerNamesAt, List.filterMap_cons, hp, hk]
    · simp [handlerNamesAt, List.filterMap_cons, hp, hk]
  · simp [handlerNamesAt, List.filterMap_cons, hp]

theorem handlerNamesAt_desig (p : List Nat) (opts : Options) (q : List Nat)
    (tr : List Event) :
    handlerNamesAt p (desigEvOf opts q ++ tr) = handlerNamesAt p tr := by
  unfold desigEvOf
  split
  · rw [List.cons_append, List.nil_append]
    exact handlerNamesAt_cons_none (by simp)
  · rfl

theorem handlerNamesAt_diag (p : List Nat) (cfg : PluginConfig)
    (names lt : List String) (q : List Nat) (tr : List Event) :
    handlerNamesAt p (diagEvOf cfg names lt q ++ tr) = handlerNamesAt p tr := by
  unfold diagEvOf
  split
  · rw [List.cons_append, List.nil_append]
    exact handlerNamesAt_cons_none (by simp)
  · rfl

/-- The handler invocations a record performs at its own position, for a
record on the success path: exactly those of its relation-loading stage. -/
theorem toJSON_handlerNames {n : Nat} {p : List Nat} {env : Env} {opts : Options}
    {m : Model} {cls : ClassDef} {rd : Option String → String}
    {rtvp : List (String × Option (List String))} {vp : List String}
    {cvOpt : Option (List String)}
    (h1 : classOf env m.tableName = some cls)
    (h2 : cls.roleDeterminer = some rd)
    (h3 : cls.rolesToVisibleProperties = some rtvp)
    (h4 : (effOmitNew env.cfg opts && m.isNew) = false)
    (h5 : lookupRole rtvp (rd (accessorOf opts m)) = some vp)
    (h6 : vp ≠ [])
    (h7 : contextVisibleOf opts m = .ok cvOpt)
    (h8 : uvpFrom vp cvOpt ≠ []) :
    handlerNamesAt p (toJSON (Nat.succ n) p env opts m).trace =
      handlerNamesAt p (ensureStage env opts m (uvpFrom vp cvOpt) p).trace := by
  rw [toJSON_succ, toJSONbody_success h1 h2 h3 h4 h5 h6 h7 h8]
  rcases afterUvp_trace_decomp (fun q c e h => toJSON_path h) p env opts m
    (uvpFrom vp cvOpt) with ⟨tr3, hdec, hlong⟩
  show handlerNamesAt p (Event.mk p .roleCall ::
    (desigEvOf opts p ++
      (afterUvp (fun q c => toJSON n q env opts c) p env opts m (uvpFrom vp cvOpt)).trace)) = _
  rw [handlerNamesAt_cons_none (by simp), handlerNamesAt_desig, hdec,
    handlerNamesAt_append, handlerNamesAt_long_nil hlong, List.append_nil]

theorem isDesignateAt_false_of_kind {e : Event} {p : List Nat}
    (h : e.kind ≠ .designate) : e.isDesignateAt p = false := by
  unfold Event.isDesignateAt
  rcases hk : e.kind <;> simp_all

theorem isDesignateAt_false_of_path {e : Event} {p : List Nat}
    (h : e.path ≠ p) : e.isDesignateAt p = false := by
  simp [Event.isDesignateAt, h]

theorem designate_filter_nil_of {p : List Nat} {tr : List Event}
    (h : ∀ e ∈ tr, e.kind ≠ .designate ∨ e.path ≠ p) :
    tr.filter (fun e => e.isDesignateAt p) = [] := by
  rw [List.filter_eq_nil_iff]
  intro e he
  rcases h e he with hk | hp
  · simp [isDesignateAt_false_of_kind hk]
  · simp [isDesignateAt_false_of_path hp]

theorem afterUvp_designate_nil {rec : List Nat → Model → SerRes (Option Value)}
    (Hrec : ∀ q c e, e ∈ (rec q c).trace → q.length ≤ e.path.length)
    (p : List Nat) (env : Env) (opts : Options) (m : Model) (uvp : List String) :
    (afterUvp rec p env opts m uvp).trace.filter (fun e => e.isDesignateAt p) = [] := by
  apply designate_filter_nil_of
  intro e he
  rcases afterUvp_trace_decomp Hrec p env opts m uvp with ⟨tr3, hdec, hlong⟩
  rw [hdec] at he
  rcases List.mem_append.mp he with h1 | h1
  · exact Or.inl (ensureStage_events h1).2.1
  · refine Or.inr ?_
    have := hlong e h1
    intro hp
    rw [hp] at this
    omega

theorem desigEvOf_filter_le (opts : Options) (p : List Nat) :
    ((desigEvOf opts p).filter (fun e => e.isDesignateAt p)).length ≤ 1 := by
  unfold desigEvOf
  split
  · exact le_trans (List.length_filter_le _ _) (by simp)
  · simp

theorem toJSONbody_designate_le {rec : List Nat → Model → SerRes (Option Value)}
    (Hrec : ∀ q c e, e ∈ (rec q c).trace → q.length ≤ e.path.length)
    (p : List Nat) (env : Env) (opts : Options) (m : Model) :
    ((toJSONbody rec p env opts m).trace.filter
      (fun e => e.isDesignateAt p)).length ≤ 1 := by
  unfold toJSONbody
  split
  · simp
  · split
    · simp
    · split
      · simp
      · split
        · simp
        · split
          · simp [Event.isDesignateAt]
          · split
            · simp [List.filter, Event.isDesignateAt]
            · split
              · rw [show (Event.mk p .roleCall :: desigEvOf opts p).filter
                    (fun e => e.isDesignateAt p) =
                    (desigEvOf opts p).filter (fun e => e.isDesignateAt p) from by
                  rw [List.filter_cons_of_neg (by simp [Event.isDesignateAt])]]
                exact desigEvOf_filter_le opts p
              · split
                · rw [show (Event.mk p .roleCall :: desigEvOf opts p).filter
                      (fun e => e.isDesignateAt p) =
                      (desigEvOf opts p).filter (fun e => e.isDesignateAt p) from by
                    rw [List.filter_cons_of_neg (by simp [Event.isDesignateAt])]]
                  exact desigEvOf_filter_le opts p
                · rw [show Event.mk p .roleCall :: desigEvOf opts p ++
                      (afterUvp rec p env opts m _).trace =
                      Event.mk p .roleCall :: (desigEvOf opts p ++
                        (afterUvp rec p env opts m _).trace) from rfl,
                    List.filter_cons_of_neg (by simp [Event.isDesignateAt]),
                    List.filter_append, afterUvp_designate_nil Hrec,
                    List.append_nil]
                  exact desigEvOf_filter_le opts p

theorem Model.attributes_withRelations (m : Model) (r : List (String × RelVal)) :
    (m.withRelations r).attributes = m.attributes := by
  cases m; rfl

theorem Model.relations_withRelations (m : Model) (r : List (String × RelVal)) :
    (m.withRelations r).relations = r := by
  cases m; rfl

theorem stampModel_chain (acc : Option String) (ch : List String) (c : Model) :
    (stampModel acc ch c).chain = ch := by
  cases c; rfl

theorem stampModel_accessor (acc : Option String) (ch : List String) (c : Model) :
    (stampModel acc ch c).accessor = acc := by
  cases c; rfl

theorem pickJS_nil (keys : List String) : pickJS [] keys = [] := by
  unfold pickJS
  rw [List.filterMap_eq_nil_iff]
  intro k _
  simp [lookupAssoc]

theorem afterUvp_ensure_err {rec : List Nat → Model → SerRes (Option Value)}
    {p : List Nat} {env : Env} {opts : Options} {m : Model} {uvp : List String}
    {er : SerErr} (h : ensureStage env opts m uvp p = ⟨[], .error er⟩) :
    afterUvp rec p env opts m uvp = ⟨[], .error er⟩ := by
  simp [afterUvp, h]

theorem membersToJSON_ok {rec : List Nat → Model → SerRes (Option Value)}
    {p : List Nat} : ∀ {j : Nat} {ms : List Model} {rs : List (Option Value)},
    ms.length = rs.length →
    (∀ k mk rk, ms[k]? = some mk → rs[k]? = some rk →
      (rec (p ++ [j + k]) mk).res = .ok rk) →
    (membersToJSON rec p j ms).res = .ok rs := by
  intro j ms
  induction ms generalizing j with
  | nil =>
    intro rs hlen h
    rcases rs with _ | ⟨r, rs'⟩
    · simp [membersToJSON]
    · simp at hlen
  | cons c rest ih =>
    intro rs hlen h
    rcases rs with _ | ⟨r, rs'⟩
    · simp at hlen
    · have hc : (rec (p ++ [j]) c).res = .ok r := by
        have := h 0 c r (by simp) (by simp)
        simpa using this
      have hrest : (membersToJSON rec p (j + 1) rest).res = .ok rs' := by
        apply ih (by simpa using hlen)
        intro k mk rk hm hr
        have := h (k + 1) mk rk (by simpa using hm) (by simpa using hr)
        rw [show j + (k + 1) = (j + 1) + k from by omega] at this
        exact this
      simp only [membersToJSON, hc, hrest]

/-! The claim theorems. -/

/-- C1: every key of an object returned by model serialization is a member
of `ultimatelyVisibleProperties`, which is a subset of the role-determined
visible-property array, and a subset of the context-specific array whenever
one is supplied. -/
theorem whitelist_intersection_bounds_output (n : Nat) (p : List Nat)
    (env : Env) (opts : Options) (m : Model) (fields : List (String × Value))
    (h : (toJSON n p env opts m).res = .ok (some (.obj fields))) :
    ∃ cls rd rtvp vp cvOpt,
      classOf env m.tableName = some cls ∧
      cls.roleDeterminer = some rd ∧
      cls.rolesToVisibleProperties = some rtvp ∧
      lookupRole rtvp (rd (accessorOf opts m)) = some vp ∧
      contextVisibleOf opts m = .ok cvOpt ∧
      (∀ kv ∈ fields, kv.1 ∈ uvpFrom vp cvOpt) ∧
      (∀ x ∈ uvpFrom vp cvOpt, x ∈ vp) ∧
      (∀ cv, cvOpt = some cv → ∀ x ∈ uvpFrom vp cvOpt, x ∈ cv) := by
  cases n with
  | zero => simp [toJSON] at h
  | succ n =>
    rw [toJSON_succ] at h
    rcases toJSONbody_obj_inv h with
      ⟨cls, rd, rtvp, vp, cvOpt, h1, h2, h3, h5, h7, hkeys, _⟩
    refine ⟨cls, rd, rtvp, vp, cvOpt, h1, h2, h3, h5, h7, hkeys, ?_, ?_⟩
    · intro x hx
      cases cvOpt with
      | none => simpa [uvpFrom] using hx
      | some cv => exact (mem_intersectionJS (by simpa [uvpFrom] using hx)).1
    · intro cv hcv x hx
      subst hcv
      exact (mem_intersectionJS (by simpa [uvpFrom] using hx)).2

/-- C1 witness: concrete serialization of `mFull`. -/
theorem whitelist_intersection_bounds_output_witness :
    ∃ cls rd rtvp vp cvOpt,
      classOf envW mFull.tableName = some cls ∧
      cls.roleDeterminer = some rd ∧
      cls.rolesToVisibleProperties = some rtvp ∧
      lookupRole rtvp (rd (accessorOf optsW mFull)) = some vp ∧
      contextVisibleOf optsW mFull = .ok cvOpt ∧
      (∀ kv ∈ [("id", Value.str "1"), ("username", Value.str "a")],
        kv.1 ∈ uvpFrom vp cvOpt) ∧
      (∀ x ∈ uvpFrom vp cvOpt, x ∈ vp) ∧
      (∀ cv, cvOpt = some cv → ∀ x ∈ uvpFrom vp cvOpt, x ∈ cv) :=
  whitelist_intersection_bounds_output 1 [] envW optsW mFull
    [("id", Value.str "1"), ("username", Value.str "a")] (by rfl)

/-- C2: a record whose role-determined visible-property array is empty, or
whose whitelist intersection is empty, serializes to ABSENT with no relation
loading and no serialization work: the whole interaction trace is just the
role determination (plus the eager designator application in the second
case). -/
theorem empty_whitelist_absent (n : Nat) (p : List Nat) (env : Env)
    (opts : Options) (m : Model) (cls : ClassDef) (rd : Option String → String)
    (rtvp : List (String × Option (List String)))
    (h1 : classOf env m.tableName = some cls)
    (h2 : cls.roleDeterminer = some rd)
    (h3 : cls.rolesToVisibleProperties = some rtvp)
    (h4 : (effOmitNew env.cfg opts && m.isNew) = false) :
    (lookupRole rtvp (rd (accessorOf opts m)) = some [] →
      toJSON (n + 1) p env opts m = ⟨[⟨p, .roleCall⟩], .ok none⟩) ∧
    (∀ vp cvOpt, lookupRole rtvp (rd (accessorOf opts m)) = some vp →
      vp ≠ [] → contextVisibleOf opts m = .ok cvOpt → uvpFrom vp cvOpt = [] →
      toJSON (n + 1) p env opts m =
        ⟨⟨p, .roleCall⟩ :: desigEvOf opts p, .ok none⟩) := by
  constructor
  · intro h5
    rw [toJSON_succ]
    exact toJSONbody_roleEmpty h1 h2 h3 h4 h5
  · intro vp cvOpt h5 h6 h7 h8
    rw [toJSON_succ]
    exact toJSONbody_uvpEmpty h1 h2 h3 h4 h5 h6 h7 h8

/-- C2 witness: a blocked record, and a record whose context narrowing
empties the whitelist. -/
theorem empty_whitelist_absent_witness :
    toJSON 1 [] envW optsW mBlockedW = ⟨[⟨[], .roleCall⟩], .ok none⟩ ∧
    toJSON 1 [] envW optsCsv0 mFull = ⟨[⟨[], .roleCall⟩], .ok none⟩ :=
  ⟨(empty_whitelist_absent 0 [] envW optsW mBlockedW clsW rdW rtvpW
      rfl rfl rfl rfl).1 rfl,
   (empty_whitelist_absent 0 [] envW optsCsv0 mFull clsW rdW rtvpW
      rfl rfl rfl rfl).2 ["id", "username", "kids", "r1"] (some ["nothing"])
      rfl (by simp) rfl rfl⟩

/-- C3: a serialized collection is exactly the list of member serialization
results with the ABSENT (`undefined`) outcomes removed, in original
membership order — removed members leave no index, placeholder, count or
ordering trace. -/
theorem collection_filters_absent_in_order (n : Nat) (env : Env)
    (opts : Options) (p : List Nat) (ms : List Model) (rs : List (Option Value))
    (hlen : ms.length = rs.length)
    (h : ∀ k mk rk, ms[k]? = some mk → rs[k]? = some rk →
      (toJSON n (p ++ [k]) env opts mk).res = .ok rk) :
    (collectionSerialize n env opts p ms).res = .ok (rs.filterMap id) := by
  unfold collectionSerialize
  have hm : (membersToJSON (fun q c => toJSON n q env opts c) p 0 ms).res = .ok rs := by
    apply membersToJSON_ok hlen
    intro k mk rk hmk hrk
    simpa using h k mk rk hmk hrk
  simp only [hm]

/-- C3 witness: a three-member collection whose middle member is ABSENT
serializes to the two visible members, in order, with no placeholder. -/
theorem collection_filters_absent_in_order_witness :
    (collectionSerialize 1 envW optsW [] [mFull, mBlockedW, mIdOnly]).res =
      .ok [Value.obj [("id", Value.str "1"), ("username", Value.str "a")],
           Value.obj [("id", Value.str "9")]] :=
  collection_filters_absent_in_order 1 envW optsW [] [mFull, mBlockedW, mIdOnly]
    [some (Value.obj [("id", Value.str "1"), ("username", Value.str "a")]),
     none, some (Value.obj [("id", Value.str "9")])] rfl
    (by
      intro k mk rk hmk hrk
      match k with
      | 0 =>
        simp at hmk hrk
        rw [← hmk, ← hrk]
        rfl
      | 1 =>
        simp at hmk hrk
        rw [← hmk, ← hrk]
        rfl
      | 2 =>
        simp at hmk hrk
        rw [← hmk, ← hrk]
        rfl
      | (k + 3) => simp at hmk)

/-- C5: within one serialization of one record (the record at position `p`),
the context designator is invoked at most once; its single result feeds both
the context-visibility lookup and the ensure-relations lookup. -/
theorem designator_invoked_at_most_once (n : Nat) (p : List Nat) (env : Env)
    (opts : Options) (m : Model) :
    ((toJSON n p env opts m).trace.filter
      (fun e => e.isDesignateAt p)).length ≤ 1 := by
  cases n with
  | zero => simp [toJSON]
  | succ n =>
    rw [toJSON_succ]
    exact toJSONbody_designate_le (fun q c e h => toJSON_path h) p env opts m

/-- C7: a relation handed out by `related` carries the parent's relation
chain extended by exactly the one relation name, and the parent's accessor,
for a single-model relation and for every member of a collection relation;
`fetchAll` stamps the calling model's accessor on every fetched model. -/
theorem relation_chain_grows_by_one :
    (∀ (m : Model) (name : String) (c : Model),
      m.related name = some (.one c) →
      c.chain = m.chain ++ [name] ∧ c.accessor = m.accessor) ∧
    (∀ (m : Model) (name : String) (cs : List Model),
      m.related name = some (.many cs) →
      ∀ c ∈ cs, c.chain = m.chain ++ [name] ∧ c.accessor = m.accessor) ∧
    (∀ (m : Model) (l : List Model), ∀ c ∈ m.fetchAll l,
      c.accessor = m.accessor) := by
  refine ⟨?_, ?_, ?_⟩
  · intro m name c h
    unfold Model.related at h
    rcases hl : lookupAssoc m.relations name with _ | r
    · rw [hl] at h; simp at h
    · rw [hl] at h
      simp only [Option.map_some', Option.some.injEq] at h
      rcases r with c' | cs'
      · simp only [stampRel, RelVal.one.injEq] at h
        rw [← h]
        exact ⟨stampModel_chain _ _ _, stampModel_accessor _ _ _⟩
      · simp [stampRel] at h
  · intro m name cs h c hc
    unfold Model.related at h
    rcases hl : lookupAssoc m.relations name with _ | r
    · rw [hl] at h; simp at h
    · rw [hl] at h
      simp only [Option.map_some', Option.some.injEq] at h
      rcases r with c' | cs'
      · simp [stampRel] at h
      · simp only [stampRel, RelVal.many.injEq] at h
        rw [← h] at hc
        rcases List.mem_map.mp hc with ⟨c'', _, hcc⟩
        rw [← hcc]
        exact ⟨stampModel_chain _ _ _, stampModel_accessor _ _ _⟩
  · intro m l c hc
    rcases List.mem_map.mp hc with ⟨c', _, hcc⟩
    rw [← hcc]
    exact stampModel_accessor _ _ _

/-- C7 witness: `related` and `fetchAll` on a concrete record. -/
theorem relation_chain_grows_by_one_witness :
    ((stampModel (some "full") ["r1"] mIdOnly).chain = mC8.chain ++ ["r1"] ∧
     (stampModel (some "full") ["r1"] mIdOnly).accessor = mC8.accessor) ∧
    (∀ c ∈ mC8.fetchAll [mIdOnly], c.accessor = mC8.accessor) :=
  ⟨relation_chain_grows_by_one.1 mC8 "r1" (stampModel (some "full") ["r1"] mIdOnly) rfl,
   relation_chain_grows_by_one.2.2 mC8 [mIdOnly]⟩

/-- C6: every value that is a structurally empty object is rewritten, in
place, to `null` before the result is returned: the returned fields are the
image of the pre-normalization object under the normalization map, the key
list is unchanged, every key bound to an empty object before normalization
is bound to `null` in the result, and no empty object survives; a concrete
record with an empty-record relation slot comes back with `null` there;
and a genuinely empty record that is not ABSENT serializes, at its own
level, to the empty object rather than `null`. -/
theorem empty_objects_normalized_to_null :
    (∀ (n : Nat) (p : List Nat) (env : Env) (opts : Options) (m : Model)
      (fields : List (String × Value)),
      (toJSON n p env opts m).res = .ok (some (.obj fields)) →
      ∃ pre, fields = normalizeVals pre ∧
        fields.map Prod.fst = pre.map Prod.fst ∧
        (∀ k, (k, Value.obj []) ∈ pre → (k, Value.vnull) ∈ fields) ∧
        (∀ kv ∈ fields, kv.2 ≠ Value.obj [])) ∧
    ((toJSON 2 [] envW optsW mParentEmptyChild).res =
      .ok (some (.obj [("id", Value.str "5"), ("kids", Value.vnull)]))) ∧
    (∀ (n : Nat) (p : List Nat) (env : Env) (opts : Options) (m : Model)
      (cls : ClassDef) (rd : Option String → String)
      (rtvp : List (String × Option (List String))) (vp : List String)
      (cvOpt : Option (List String)),
      classOf env m.tableName = some cls →
      cls.roleDeterminer = some rd →
      cls.rolesToVisibleProperties = some rtvp →
      (effOmitNew env.cfg opts && m.isNew) = false →
      lookupRole rtvp (rd (accessorOf opts m)) = some vp →
      vp ≠ [] →
      contextVisibleOf opts m = .ok cvOpt →
      uvpFrom vp cvOpt ≠ [] →
      m.attributes = [] →
      m.relations = [] →
      (toJSON (n + 1) p env opts m).res = .ok (some (.obj []))) := by
  refine ⟨?_, by rfl, ?_⟩
  · intro n p env opts m fields h
    cases n with
    | zero => simp [toJSON] at h
    | succ n =>
      rw [toJSON_succ] at h
      rcases toJSONbody_obj_inv h with
        ⟨cls, rd, rtvp, vp, cvOpt, _, _, _, _, _, _, pre, hfields⟩
      refine ⟨pre, hfields, ?_, ?_, ?_⟩
      · rw [hfields, normalizeVals_keys]
      · intro k hk
        rw [hfields]
        exact normalizeVals_empty_obj_to_null hk
      · intro kv hkv
        rw [hfields] at hkv
        exact normalizeVals_no_empty_obj hkv
  · intro n p env opts m cls rd rtvp vp cvOpt h1 h2 h3 h4 h5 h6 h7 h8 hattr hrel
    rw [toJSON_succ, toJSONbody_success h1 h2 h3 h4 h5 h6 h7 h8]
    have hens : ensureStage env opts m (uvpFrom vp cvOpt) p = ⟨[], .ok m⟩ :=
      ensureStage_skip (by simp [hattr])
    have hm2 : (pruneRelations m (uvpFrom vp cvOpt)).relations = [] := by
      simp [pruneRelations, Model.relations_withRelations, hrel]
    show (afterUvp _ p env opts m (uvpFrom vp cvOpt)).res = _
    unfold afterUvp
    rw [hens]
    simp only [hm2, serializeRelsAux]
    simp [pruneRelations, attrsJson, Model.attributes_withRelations, hattr,
      pickJS_nil, normalizeVals]

/-- C6 witness: the rewritten-to-null fields of the record with an empty
relation slot, the in-place rewrite at the `kids` key, and the
genuinely-empty record serializing to the empty object. -/
theorem empty_objects_normalized_to_null_witness :
    (∃ pre, [("id", Value.str "5"), ("kids", Value.vnull)] = normalizeVals pre ∧
      [("id", Value.str "5"), ("kids", Value.vnull)].map Prod.fst =
        pre.map Prod.fst ∧
      (∀ k, (k, Value.obj []) ∈ pre →
        (k, Value.vnull) ∈ [("id", Value.str "5"), ("kids", Value.vnull)]) ∧
      (∀ kv ∈ [("id", Value.str "5"), ("kids", Value.vnull)],
        kv.2 ≠ Value.obj [])) ∧
    (toJSON 1 [] envW optsW mEmptyVisible).res = .ok (some (.obj [])) :=
  ⟨empty_objects_normalized_to_null.1 2 [] envW optsW mParentEmptyChild
     [("id", Value.str "5"), ("kids", Value.vnull)] (by rfl),
   empty_objects_normalized_to_null.2.2 0 [] envW optsW mEmptyVisible clsW rdW
     rtvpW ["id", "username", "kids", "r1"] none rfl rfl rfl rfl rfl
     (by simp) rfl (by decide) rfl rfl⟩

/-- C8 counterexample: a record with zero attributes but a populated
relation — by the claim not a genuinely empty record, so the requested
relation names should be resolved and loaded — yet the code skips the
relation-loading step entirely: no handler invocation occurs, although the
requested name is in the load list the policy would compute. -/
theorem ensure_skip_counterexample :
    mC8.attributes.isEmpty = true ∧
    mC8.relations.isEmpty = false ∧
    ensureNamesOf optsC8 mC8 = .ok (some ["r1"]) ∧
    envW.cfg.ensureRelationsVisibleAndInvisible = false ∧
    loadTheseOf envW.cfg ["r1"] ["id", "username", "kids", "r1"] = ["r1"] ∧
    handlerNamesAt [] (toJSON 2 [] envW optsC8 mC8).trace = [] :=
  ⟨rfl, rfl, rfl, rfl, rfl, rfl⟩

/-- C8 (amended): the relation-loading step is skipped exactly when the
record's attribute map is empty — regardless of its relations; for a record
with at least one attribute the resolved names are loaded per the loading
policy. -/
theorem ensure_skip_iff_attributes_empty :
    (∀ (n : Nat) (p : List Nat) (env : Env) (opts : Options) (m : Model)
      (cls : ClassDef) (rd : Option String → String)
      (rtvp : List (String × Option (List String))) (vp : List String)
      (cvOpt : Option (List String)),
      classOf env m.tableName = some cls →
      cls.roleDeterminer = some rd →
      cls.rolesToVisibleProperties = some rtvp →
      (effOmitNew env.cfg opts && m.isNew) = false →
      lookupRole rtvp (rd (accessorOf opts m)) = some vp →
      vp ≠ [] →
      contextVisibleOf opts m = .ok cvOpt →
      uvpFrom vp cvOpt ≠ [] →
      m.attributes.isEmpty = true →
      handlerNamesAt p (toJSON (n + 1) p env opts m).trace = []) ∧
    (∀ (n : Nat) (p : List Nat) (env : Env) (opts : Options) (m : Model)
      (cls : ClassDef) (rd : Option String → String)
      (rtvp : List (String × Option (List String))) (vp : List String)
      (cvOpt : Option (List String)) (names : List String),
      classOf env m.tableName = some cls →
      cls.roleDeterminer = some rd →
      cls.rolesToVisibleProperties = some rtvp →
      (effOmitNew env.cfg opts && m.isNew) = false →
      lookupRole rtvp (rd (accessorOf opts m)) = some vp →
      vp ≠ [] →
      contextVisibleOf opts m = .ok cvOpt →
      uvpFrom vp cvOpt ≠ [] →
      m.attributes.isEmpty = false →
      ensureNamesOf opts m = .ok (some names) →
      handlerNamesAt p (toJSON (n + 1) p env opts m).trace =
        loadTheseOf env.cfg names (uvpFrom vp cvOpt)) := by
  constructor
  · intro n p env opts m cls rd rtvp vp cvOpt h1 h2 h3 h4 h5 h6 h7 h8 hattr
    rw [toJSON_handlerNames h1 h2 h3 h4 h5 h6 h7 h8, ensureStage_skip hattr]
    rfl
  · intro n p env opts m cls rd rtvp vp cvOpt names h1 h2 h3 h4 h5 h6 h7 h8
      hattr hens
    rw [toJSON_handlerNames h1 h2 h3 h4 h5 h6 h7 h8,
      ensureStage_run hattr hens]
    show handlerNamesAt p (diagEvOf env.cfg names _ p ++ _) = _
    rw [handlerNamesAt_diag, loadAll_handlerNames]

/-- C8 witness: loading is skipped on the attribute-less record and performed
on the record with attributes. -/
theorem ensure_skip_iff_attributes_empty_witness :
    handlerNamesAt [] (toJSON 2 [] envW optsC8 mC8).trace = [] ∧
    handlerNamesAt [] (toJSON 2 [] envW optsC8 mC8b).trace = ["r1"] :=
  ⟨ensure_skip_iff_attributes_empty.1 1 [] envW optsC8 mC8 clsW rdW rtvpW
     ["id", "username", "kids", "r1"] none rfl rfl rfl rfl rfl (by decide)
     rfl (by decide) rfl,
   ensure_skip_iff_attributes_empty.2 1 [] envW optsC8 mC8b clsW rdW rtvpW
     ["id", "username", "kids", "r1"] none ["r1"] rfl rfl rfl rfl rfl
     (by decide) rfl (by decide) rfl rfl⟩

/-- C4: with the force-load toggle on, outside production, a requested
relation name that is not a visible property is loaded — but the diagnostic
that the specification (and the code's own log message) promises for the
names loaded this way is not emitted: the guard compares the load list
against the request list, and with the toggle on these are the same list. -/
theorem force_load_diagnostic_never_emitted :
    (toJSON 2 [] envC4 optsC4 mC4).trace =
      [⟨[], .roleCall⟩, ⟨[], .handlerCall "secret"⟩, ⟨[], .dbLoad "secret"⟩] ∧
    hasDiagnostic (toJSON 2 [] envC4 optsC4 mC4).trace = false ∧
    envC4.cfg.ensureRelationsVisibleAndInvisible = true ∧
    envC4.cfg.production = false ∧
    ensureNamesOf optsC4 mC4 = .ok (some ["secret"]) ∧
    handlerNamesAt [] (toJSON 2 [] envC4 optsC4 mC4).trace = ["secret"] ∧
    uvpFrom ["id"] none = ["id"] ∧
    (["id"] : List String).contains "secret" = false :=
  ⟨rfl, rfl, rfl, rfl, rfl, rfl, rfl, rfl⟩

/-- C9: every configuration error aborts the whole call with an error
outcome and no partial result: a missing `roleDeterminer` (or class), a
missing `rolesToVisibleProperties`, a non-array visible set, a map-form
table entry without a `contextDesignator`, a designation identifying no
array, and any such error in a collection member all surface as the error
result of the entire call. -/
theorem config_errors_abort_call :
    (∀ (n : Nat) (p : List Nat) (env : Env) (opts : Options) (m : Model),
      classOf env m.tableName = none →
      toJSON (n + 1) p env opts m =
        ⟨[], .error (.missingRoleDeterminer m.tableName)⟩) ∧
    (∀ (n : Nat) (p : List Nat) (env : Env) (opts : Options) (m : Model)
      (cls : ClassDef), classOf env m.tableName = some cls →
      cls.roleDeterminer = none →
      toJSON (n + 1) p env opts m =
        ⟨[], .error (.missingRoleDeterminer m.tableName)⟩) ∧
    (∀ (n : Nat) (p : List Nat) (env : Env) (opts : Options) (m : Model)
      (cls : ClassDef) (rd : Option String → String),
      classOf env m.tableName = some cls →
      cls.roleDeterminer = some rd →
      cls.rolesToVisibleProperties = none →
      toJSON (n + 1) p env opts m =
        ⟨[], .error (.missingRolesToVisibleProperties m.tableName)⟩) ∧
    (∀ (n : Nat) (p : List Nat) (env : Env) (opts : Options) (m : Model)
      (cls : ClassDef) (rd : Option String → String)
      (rtvp : List (String × Option (List String))),
      classOf env m.tableName = some cls →
      cls.roleDeterminer = some rd →
      cls.rolesToVisibleProperties = some rtvp →
      (effOmitNew env.cfg opts && m.isNew) = false →
      lookupRole rtvp (rd (accessorOf opts m)) = none →
      toJSON (n + 1) p env opts m =
        ⟨[⟨p, .roleCall⟩],
         .error (.nonArrayVisibleProperties m.tableName
           (rd (accessorOf opts m)))⟩) ∧
    (∀ (n : Nat) (p : List Nat) (env : Env) (opts : Options) (m : Model)
      (cls : ClassDef) (rd : Option String → String)
      (rtvp : List (String × Option (List String))) (vp : List String)
      (er : SerErr),
      classOf env m.tableName = some cls →
      cls.roleDeterminer = some rd →
      cls.rolesToVisibleProperties = some rtvp →
      (effOmitNew env.cfg opts && m.isNew) = false →
      lookupRole rtvp (rd (accessorOf opts m)) = some vp →
      vp ≠ [] →
      contextVisibleOf opts m = .error er →
      toJSON (n + 1) p env opts m =
        ⟨⟨p, .roleCall⟩ :: desigEvOf opts p, .error er⟩) ∧
    (∀ (n : Nat) (p : List Nat) (env : Env) (opts : Options) (m : Model)
      (cls : ClassDef) (rd : Option String → String)
      (rtvp : List (String × Option (List String))) (vp : List String)
      (cvOpt : Option (List String)) (er : SerErr),
      classOf env m.tableName = some cls →
      cls.roleDeterminer = some rd →
      cls.rolesToVisibleProperties = some rtvp →
      (effOmitNew env.cfg opts && m.isNew) = false →
      lookupRole rtvp (rd (accessorOf opts m)) = some vp →
      vp ≠ [] →
      contextVisibleOf opts m = .ok cvOpt →
      uvpFrom vp cvOpt ≠ [] →
      m.attributes.isEmpty = false →
      ensureNamesOf opts m = .error er →
      (toJSON (n + 1) p env opts m).res = .error er) ∧
    (∀ (n : Nat) (p : List Nat) (env : Env) (opts : Options) (m : Model)
      (ms : List Model) (er : SerErr),
      (toJSON n (p ++ [0]) env opts m).res = .error er →
      (collectionSerialize n env opts p (m :: ms)).res = .error er) := by
  refine ⟨?_, ?_, ?_, ?_, ?_, ?_, ?_⟩
  · intro n p env opts m h
    rw [toJSON_succ]
    simp [toJSONbody, h]
  · intro n p env opts m cls h1 h2
    rw [toJSON_succ]
    simp [toJSONbody, h1, h2]
  · intro n p env opts m cls rd h1 h2 h3
    rw [toJSON_succ]
    simp [toJSONbody, h1, h2, h3]
  · intro n p env opts m cls rd rtvp h1 h2 h3 h4 h5
    rw [toJSON_succ]
    simp [toJSONbody, h1, h2, h3, h4, h5]
  · intro n p env opts m cls rd rtvp vp er h1 h2 h3 h4 h5 h6 h7
    rw [toJSON_succ]
    simp [toJSONbody, h1, h2, h3, h4, h5, h6, h7]
  · intro n p env opts m cls rd rtvp vp cvOpt er h1 h2 h3 h4 h5 h6 h7 h8
      hattr hens
    rw [toJSON_succ, toJSONbody_success h1 h2 h3 h4 h5 h6 h7 h8]
    show (afterUvp _ p env opts m (uvpFrom vp cvOpt)).res = _
    rw [afterUvp_ensure_err (ensureStage_err hattr hens)]
  · intro n p env opts m ms er h
    unfold collectionSerialize membersToJSON
    simp [h]

/-- C9 witness: each configuration-error condition at a concrete input. -/
theorem config_errors_abort_call_witness :
    toJSON 1 [] envW optsW mNoClass =
      ⟨[], .error (.missingRoleDeterminer "ghosts")⟩ ∧
    toJSON 1 [] envW optsW mNoRole =
      ⟨[], .error (.missingRoleDeterminer "norole")⟩ ∧
    toJSON 1 [] envW optsW mNoVis =
      ⟨[], .error (.missingRolesToVisibleProperties "novis")⟩ ∧
    toJSON 1 [] envW optsW mBadRole =
      ⟨[⟨[], .roleCall⟩], .error (.nonArrayVisibleProperties "users" "badrole")⟩ ∧
    toJSON 1 [] envW optsCsvErr mFull =
      ⟨[⟨[], .roleCall⟩], .error (.missingContextDesignator "users")⟩ ∧
    (toJSON 1 [] envW optsEnsErr mFull).res =
      .error (.missingContextDesignatorForRelations "users") ∧
    (collectionSerialize 1 envW optsW [] [mNoClass]).res =
      .error (.missingRoleDeterminer "ghosts") :=
  ⟨config_errors_abort_call.1 0 [] envW optsW mNoClass rfl,
   config_errors_abort_call.2.1 0 [] envW optsW mNoRole ⟨none, some []⟩ rfl rfl,
   config_errors_abort_call.2.2.1 0 [] envW optsW mNoVis ⟨some rdW, none⟩
     rdW rfl rfl rfl,
   config_errors_abort_call.2.2.2.1 0 [] envW optsW mBadRole clsW rdW rtvpW
     rfl rfl rfl rfl rfl,
   config_errors_abort_call.2.2.2.2.1 0 [] envW optsCsvErr mFull clsW rdW
     rtvpW ["id", "username", "kids", "r1"]
     (.missingContextDesignator "users") rfl rfl rfl rfl rfl (by decide) rfl,
   config_errors_abort_call.2.2.2.2.2.1 0 [] envW optsEnsErr mFull clsW rdW
     rtvpW ["id", "username", "kids", "r1"] none
     (.missingContextDesignatorForRelations "users") rfl rfl rfl rfl rfl
     (by decide) rfl (by decide) rfl rfl,
   config_errors_abort_call.2.2.2.2.2.2 1 [] envW optsW mNoClass []
     (.missingRoleDeterminer "ghosts") rfl⟩

/-- C10: with the effective `omitNew` option true and the model new,
`toJSON` returns the base Bookshelf result immediately: the trace is empty —
no role determination, no designation, no relation loading, no recursion. -/
theorem omit_new_early_return (n : Nat) (p : List Nat) (env : Env)
    (opts : Options) (m : Model) (cls : ClassDef)
    (rd : Option String → String)
    (rtvp : List (String × Option (List String)))
    (h1 : classOf env m.tableName = some cls)
    (h2 : cls.roleDeterminer = some rd)
    (h3 : cls.rolesToVisibleProperties = some rtvp)
    (h4 : effOmitNew env.cfg opts = true)
    (h5 : m.isNew = true) :
    toJSON (n + 1) p env opts m = ⟨[], .ok (some .vnull)⟩ := by
  rw [toJSON_succ]
  exact toJSONbody_omitNew h1 h2 h3 h4 h5

/-- C10 witness: a new record with `omitNew` passed per call, and with the
plugin's `defaultOmitNew`. -/
theorem omit_new_early_return_witness :
    toJSON 1 [] envW optsOmit mNew = ⟨[], .ok (some .vnull)⟩ ∧
    toJSON 1 [] envOmitD optsW mNew = ⟨[], .ok (some .vnull)⟩ :=
  ⟨omit_new_early_return 0 [] envW optsOmit mNew clsW rdW rtvpW
     rfl rfl rfl rfl rfl,
   omit_new_early_return 0 [] envOmitD optsW mNew clsW rdW rtvpW
     rfl rfl rfl rfl rfl⟩
